import Mathlib

/-!
Verification of the apiProxy repository's core: the longest-prefix router
(`main.go`), the transparent forwarder (`internal/proxy/transparent.go`) and
the Redis-backed mapping registry (`internal/storage/redis.go`).

Go strings are modelled as `List Char` (the request paths and prefixes are
ASCII); Go maps are modelled as association lists whose order stands for the
map's iteration order; the Redis store and the manager's in-memory state are
explicit records, and each Redis command that can fail is driven by a fault
flag so that error paths of the Go code are reachable in the model.
-/

namespace ApiProxy

/-! ## Longest-prefix router (`main.go`) -/

/-- Embedding of `matchesPrefix` (main.go:219-236).  Mirrors the Go source
branch by branch: empty prefix never matches; `"/"` matches everything;
otherwise the prefix must be a string prefix of the path, and the match is
accepted when the lengths coincide, the prefix ends in `'/'`, or the path
continues with `'/'` right after the prefix. -/
def matchesPrefix (path pfx : List Char) : Bool :=
  if pfx = [] then false
  else if pfx = ['/'] then true
  else if ¬ (pfx.isPrefixOf path) then false
  else if path.length = pfx.length then true
  else if pfx.getLast? = some '/' then true
  else path.get? pfx.length = some '/'

/-- Embedding of `findMatchingPrefix` (main.go:209-217): the first prefix in
the sequence that matches the path. -/
def findMatchingPrefix (path : List Char) (prefixes : List (List Char)) :
    Option (List Char) :=
  prefixes.find? (fun pfx => matchesPrefix path pfx)

/-- Embedding of `remainingPathAfterPrefix` (main.go:238-247); the Go local
`remainder := path[len(prefix):]` is written out as `path.drop pfx.length`. -/
def remainingPathAfterPrefix (path pfx : List Char) : List Char :=
  if path.length < pfx.length then []
  else if path.drop pfx.length ≠ [] ∧
      (path.drop pfx.length).head? ≠ some '/' then
    '/' :: path.drop pfx.length
  else path.drop pfx.length

/-! ## Transparent forwarder (`internal/proxy/transparent.go`) -/

/-- Association-list view of a Go `map[string][]string` (`http.Header`);
the list order is the map's iteration order, keys are unique. -/
abbrev Header := List (String × List String)

/-- Lower-case an ASCII character, as `strings.ToLower` does byte-wise. -/
def lowerChar (c : Char) : Char :=
  if 'A' ≤ c ∧ c ≤ 'Z' then Char.ofNat (c.toNat + 32) else c

/-- `strings.ToLower` on the ASCII header names involved. -/
def lowerString (s : String) : String :=
  String.mk (s.data.map lowerChar)

/-- Embedding of the package-level set `hopByHopHeaders`
(transparent.go:20-29). -/
def hopByHopHeaders : List String :=
  ["connection", "keep-alive", "proxy-authenticate", "proxy-authorization",
   "te", "trailer", "transfer-encoding", "upgrade"]

/-- Lookup in an association list keyed by exact string equality
(`dst[name]`). -/
def lookupAssoc {α : Type} : List (String × α) → String → Option α
  | [], _ => none
  | p :: rest, k => if p.1 = k then some p.2 else lookupAssoc rest k

/-- Map assignment `m[k] = v`: replace the entry when the key is present
(keys are unique in a Go map), append it otherwise. -/
def setAssoc {α : Type} : List (String × α) → String → α → List (String × α)
  | [], k, v => [(k, v)]
  | p :: rest, k, v =>
    if p.1 = k then (k, v) :: rest else p :: setAssoc rest k v

/-- Map deletion `delete(m, k)`. -/
def delAssoc {α : Type} : List (String × α) → String → List (String × α)
  | [], _ => []
  | p :: rest, k =>
    if p.1 = k then delAssoc rest k else p :: delAssoc rest k

/-- Embedding of `copyHeaders` (transparent.go:132-140): for every source
header whose lower-cased name is not hop-by-hop, assign its whole value list
to the destination (`dst[name] = values`); it is the single copy procedure
used for both the request headers (transparent.go:111) and the response
headers (transparent.go:121). -/
def copyHeaders (dst src : Header) : Header :=
  src.foldl
    (fun d nv =>
      if hopByHopHeaders.contains (lowerString nv.1) then d
      else setAssoc d nv.1 nv.2)
    dst

/-- Embedding of the deadline shaping step of `ProxyRequest`
(transparent.go:93-101): the context used for the upstream request keeps the
incoming deadline when one exists and otherwise receives a guard deadline of
`now + 30` seconds. -/
def proxyDeadline (ctxDeadline : Option Int) (now : Int) : Option Int :=
  if ctxDeadline.isSome then ctxDeadline else some (now + 30)

/-! ## Mapping registry (`internal/storage/redis.go`) -/

/-- Go `map[string]string` as an association list in iteration order. -/
abbrev Map := List (String × String)

/-- The relevant contents of the external Redis store: the
`apiproxy:mappings` hash, the `apiproxy:mappings:version` key (`none` when
the key is absent, i.e. `redis.Nil`), and the messages published on
`apiproxy:mappings:updates`. -/
structure RedisState where
  mappings : Map
  mappingsVersion : Option Int
  published : List String
  deriving DecidableEq

/-- The `MappingManager` fields the claims are about (redis.go:33-51)
together with the Redis store it talks to. -/
structure ManagerState where
  redis : RedisState
  cache : Map
  version : Int
  lastReload : Int
  deriving DecidableEq

/-- Per-call fault injection: a `true` flag makes the corresponding Redis
command return an error, modelling a transient Redis failure. -/
structure RedisFaults where
  hexistsFails : Bool := false
  hsetFails : Bool := false
  hdelFails : Bool := false
  hgetFails : Bool := false
  hgetallFails : Bool := false
  incrFails : Bool := false
  getFails : Bool := false
  setFails : Bool := false
  publishFails : Bool := false
  deriving DecidableEq

/-- The run in which every Redis command succeeds. -/
def noFaults : RedisFaults := {}

/-- Scheme and host of a parsed URL, the two parts `validateMapping`
inspects. -/
structure URLParts where
  scheme : List Char
  host : List Char
  deriving DecidableEq

/-- Split `scheme "://" rest` at the first occurrence of `"://"`. -/
def findSchemeSplit : List Char → Option (List Char × List Char)
  | [] => none
  | ':' :: '/' :: '/' :: rest => some ([], rest)
  | c :: rest => (findSchemeSplit rest).map (fun p => (c :: p.1, p.2))

/-- Modelled from the spec: `url.Parse` of the Go standard library
(`net/url`), whose source is not part of this repository.  The spec only
requires of it that the target "parses as URL" with a scheme and a host
(§4.2 Validation): parsing fails on ASCII control characters, and otherwise
the scheme is the part before the first `"://"` (empty when there is none)
and the host runs from there to the next `'/'`. -/
def urlParse (cs : List Char) : Option URLParts :=
  if cs.any (fun c => c.toNat < 32 ∨ c.toNat = 127) then none
  else
    match findSchemeSplit cs with
    | some (s, rest) => some ⟨s, rest.takeWhile (fun c => c ≠ '/')⟩
    | none => some ⟨[], []⟩

/-- Embedding of `validateMapping` (redis.go:552-586), check for check in
source order; `none` means the pair is valid, `some e` is the error
message. -/
def validateMapping (pfx target : String) : Option String :=
  if pfx.data = [] then some "prefix cannot be empty"
  else if pfx.data.head? ≠ some '/' then some "prefix must start with /"
  else if pfx.data.contains ' ' then some "prefix cannot contain spaces"
  else if target.data = [] then some "target URL cannot be empty"
  else
    match urlParse target.data with
    | none => some "invalid target URL"
    | some u =>
      if u.scheme ≠ "http".data ∧ u.scheme ≠ "https".data then
        some "target URL must use http or https scheme"
      else if u.host = [] then some "target URL must have a valid host"
      else none

/-- Embedding of `GetPrefixes` (redis.go:503-513): the keys of the cache in
its iteration order — the source performs no sorting. -/
def GetPrefixes (cache : Map) : List String :=
  cache.map Prod.fst

/-- Embedding of `GetMapping` (redis.go:278-303).  Returns the Go `(target,
error)` pair as `Except` together with the manager state after the call (the
cache is refilled on a successful Redis fallback). -/
def GetMapping (fl : RedisFaults) (st : ManagerState) (pfx : String) :
    Except String String × ManagerState :=
  match lookupAssoc st.cache pfx with
  | some target => (.ok target, st)
  | none =>
    if fl.hgetFails then (.error "redis error", st)
    else
      match lookupAssoc st.redis.mappings pfx with
      | none => (.error ("mapping not found for prefix: " ++ pfx), st)
      | some target =>
        (.ok target, { st with cache := setAssoc st.cache pfx target })

/-- Embedding of `AddMapping` (redis.go:357-402).  Returns the Go error
(`none` on success) and the manager state after the call; a failed Redis
command leaves the store untouched, a failed `Incr` or `Publish` is only
logged and does not fail the mutation. -/
def AddMapping (fl : RedisFaults) (st : ManagerState) (pfx target : String) :
    Option String × ManagerState :=
  match validateMapping pfx target with
  | some e => (some e, st)
  | none =>
    if fl.hexistsFails then (some "redis error", st)
    else if (lookupAssoc st.redis.mappings pfx).isSome then
      (some ("mapping already exists for prefix: " ++ pfx), st)
    else if fl.hsetFails then (some "redis error", st)
    else
      let redis1 :=
        { st.redis with mappings := setAssoc st.redis.mappings pfx target }
      let incrRes :=
        if fl.incrFails then ((0 : Int), redis1)
        else
          let v := redis1.mappingsVersion.getD 0 + 1
          (v, { redis1 with mappingsVersion := some v })
      let newVersion := incrRes.1
      let cache1 := setAssoc st.cache pfx target
      let version1 := if newVersion > 0 then newVersion else st.version + 1
      let redis3 :=
        if fl.publishFails then incrRes.2
        else { incrRes.2 with published := incrRes.2.published ++ ["mapping_added"] }
      (none,
        { redis := redis3, cache := cache1, version := version1,
          lastReload := st.lastReload })

/-- Embedding of `UpdateMapping` (redis.go:405-450): like `AddMapping` but
requiring that the prefix already exists. -/
def UpdateMapping (fl : RedisFaults) (st : ManagerState) (pfx target : String) :
    Option String × ManagerState :=
  match validateMapping pfx target with
  | some e => (some e, st)
  | none =>
    if fl.hexistsFails then (some "redis error", st)
    else if ¬ (lookupAssoc st.redis.mappings pfx).isSome then
      (some ("mapping not found for prefix: " ++ pfx), st)
    else if fl.hsetFails then (some "redis error", st)
    else
      let redis1 :=
        { st.redis with mappings := setAssoc st.redis.mappings pfx target }
      let incrRes :=
        if fl.incrFails then ((0 : Int), redis1)
        else
          let v := redis1.mappingsVersion.getD 0 + 1
          (v, { redis1 with mappingsVersion := some v })
      let newVersion := incrRes.1
      let cache1 := setAssoc st.cache pfx target
      let version1 := if newVersion > 0 then newVersion else st.version + 1
      let redis3 :=
        if fl.publishFails then incrRes.2
        else { incrRes.2 with published := incrRes.2.published ++ ["mapping_updated"] }
      (none,
        { redis := redis3, cache := cache1, version := version1,
          lastReload := st.lastReload })

/-- Embedding of `DeleteMapping` (redis.go:453-493). -/
def DeleteMapping (fl : RedisFaults) (st : ManagerState) (pfx : String) :
    Option String × ManagerState :=
  if fl.hexistsFails then (some "redis error", st)
  else if ¬ (lookupAssoc st.redis.mappings pfx).isSome then
    (some ("mapping not found for prefix: " ++ pfx), st)
  else if fl.hdelFails then (some "redis error", st)
  else
    let redis1 := { st.redis with mappings := delAssoc st.redis.mappings pfx }
    let incrRes :=
      if fl.incrFails then ((0 : Int), redis1)
      else
        let v := redis1.mappingsVersion.getD 0 + 1
        (v, { redis1 with mappingsVersion := some v })
    let newVersion := incrRes.1
    let cache1 := delAssoc st.cache pfx
    let version1 := if newVersion > 0 then newVersion else st.version + 1
    let redis3 :=
      if fl.publishFails then incrRes.2
      else { incrRes.2 with published := incrRes.2.published ++ ["mapping_deleted"] }
    (none,
      { redis := redis3, cache := cache1, version := version1,
        lastReload := st.lastReload })

/-- Embedding of `reloadMappings` (redis.go:164-223).  Returns the Go error
(`none` on success), the manager state after the call, and whether the full
hash read (`HGetAll`) was executed.  An absent version key (`redis.Nil`)
yields `remoteVersion = 0` as in the Go `.Int64()` call. -/
def reloadMappings (fl : RedisFaults) (st : ManagerState) (now : Int) :
    Option String × ManagerState × Bool :=
  if fl.getFails then (some "redis error", st, false)
  else
    let remoteVersion := st.redis.mappingsVersion.getD 0
    if remoteVersion > 0 ∧ remoteVersion = st.version then
      (none, { st with lastReload := now }, false)
    else if fl.hgetallFails then (some "redis error", st, true)
    else
      let mappings := st.redis.mappings
      if mappings.length = 0 then
        (none, { st with lastReload := now }, true)
      else if remoteVersion > 0 ∧ remoteVersion = st.version then
        (none, st, true)
      else
        let newCache := mappings
        let version1 := if remoteVersion > 0 then remoteVersion else st.version + 1
        let redis1 :=
          if remoteVersion > 0 then st.redis
          else if fl.setFails then st.redis
          else { st.redis with mappingsVersion := some version1 }
        (none,
          { redis := redis1, cache := newCache, version := version1,
            lastReload := now }, true)

/-- Embedding of `ForceReload` (redis.go:321-354): unconditionally replace
the cache with the hash contents; a failure of the version read is only
logged (`remoteVersion` stays `0`). -/
def ForceReload (fl : RedisFaults) (st : ManagerState) (now : Int) :
    Option String × ManagerState :=
  if fl.hgetallFails then (some "redis error", st)
  else
    let newCache := st.redis.mappings
    let remoteVersion := if fl.getFails then 0 else st.redis.mappingsVersion.getD 0
    let version1 := if remoteVersion > 0 then remoteVersion else st.version
    (none,
      { st with cache := newCache, version := version1, lastReload := now })

/-- The manager state right after `NewMappingManager` starts against an
empty store (redis.go:136-141): empty cache, local version `0`, no version
key and no mappings in Redis. -/
def initialState : ManagerState :=
  { redis := { mappings := [], mappingsVersion := none, published := [] },
    cache := [], version := 0, lastReload := 0 }

/-! ## Association-list lemmas -/

theorem lookupAssoc_setAssoc_self {α : Type} (m : List (String × α))
    (k : String) (v : α) : lookupAssoc (setAssoc m k v) k = some v := by
  induction m with
  | nil => simp [setAssoc, lookupAssoc]
  | cons p rest ih =>
    by_cases hp : p.1 = k
    · simp [setAssoc, lookupAssoc, hp]
    · simp [setAssoc, lookupAssoc, hp, ih]

theorem lookupAssoc_setAssoc_ne {α : Type} (m : List (String × α))
    (k k' : String) (v : α) (h : k' ≠ k) :
    lookupAssoc (setAssoc m k v) k' = lookupAssoc m k' := by
  have hkk' : k ≠ k' := fun hc => h hc.symm
  induction m with
  | nil => simp [setAssoc, lookupAssoc, hkk']
  | cons p rest ih =>
    by_cases hp : p.1 = k
    · have hpk' : p.1 ≠ k' := fun hc => h (hc.symm.trans hp)
      simp [setAssoc, lookupAssoc, hp, hpk', hkk']
    · by_cases hpk' : p.1 = k' <;>
        simp [setAssoc, lookupAssoc, hp, hpk', h, ih]

theorem lookupAssoc_delAssoc_self {α : Type} (m : List (String × α))
    (k : String) : lookupAssoc (delAssoc m k) k = none := by
  induction m with
  | nil => simp [delAssoc, lookupAssoc]
  | cons p rest ih =>
    by_cases hp : p.1 = k <;> simp [delAssoc, lookupAssoc, hp, ih]

/-! ## Matcher lemmas -/

theorem matchesPrefix_iff_aux (path pfx : List Char) (h : pfx ≠ []) :
    matchesPrefix path pfx = true ↔
      pfx = ['/'] ∨ path = pfx ∨
      (pfx.getLast? = some '/' ∧ pfx <+: path) ∨
      (pfx <+: path ∧ path.get? pfx.length = some '/') := by
  unfold matchesPrefix
  rw [if_neg h]
  by_cases h1 : pfx = ['/']
  · simp [h1]
  · rw [if_neg h1]
    by_cases h2 : pfx <+: path
    · have h2' : pfx.isPrefixOf path := List.isPrefixOf_iff_prefix.mpr h2
      rw [if_neg (by simp [h2'])]
      by_cases h3 : path.length = pfx.length
      · rw [if_pos h3]
        have hpathpfx : path = pfx := (List.IsPrefix.eq_of_length h2 h3.symm).symm
        simp [hpathpfx]
      · rw [if_neg h3]
        have hne : path ≠ pfx := fun e => h3 (by rw [e])
        by_cases h4 : pfx.getLast? = some '/'
        · rw [if_pos h4]; simp [h1, h2, h4]
        · rw [if_neg h4]
          simp [h1, hne, h4, h2]
    · have h2' : ¬ pfx.isPrefixOf path := fun hh =>
        h2 (List.isPrefixOf_iff_prefix.mp hh)
      rw [if_pos (by simpa using h2')]
      have hne : path ≠ pfx := fun e => h2 (by rw [e])
      simp [h1, hne, h2]

theorem remainingPath_eq_nil_of_eq (path pfx : List Char) (h : path = pfx) :
    remainingPathAfterPrefix path pfx = [] := by
  subst h
  simp [remainingPathAfterPrefix]

theorem remainingPath_head (path pfx : List Char)
    (h : remainingPathAfterPrefix path pfx ≠ []) :
    (remainingPathAfterPrefix path pfx).head? = some '/' := by
  unfold remainingPathAfterPrefix at h ⊢
  by_cases hlt : path.length < pfx.length
  · simp [hlt] at h
  · rw [if_neg hlt] at h ⊢
    by_cases hc : path.drop pfx.length ≠ [] ∧
        (path.drop pfx.length).head? ≠ some '/'
    · rw [if_pos hc] at h ⊢; simp
    · rw [if_neg hc] at h ⊢
      rcases not_and_or.mp hc with hninj | hh
      · exact absurd h (by simpa using hninj)
      · simpa using hh

theorem remainingPath_append (path pfx : List Char)
    (hpath : path.head? = some '/') (hm : matchesPrefix path pfx = true) :
    pfx ++ remainingPathAfterPrefix path pfx = path ∨
      (pfx.getLast? = some '/' ∧
        pfx.dropLast ++ remainingPathAfterPrefix path pfx = path) := by
  have hne : pfx ≠ [] := by
    intro e; rw [e] at hm; simp [matchesPrefix] at hm
  rcases (matchesPrefix_iff_aux path pfx hne).mp hm with
    h1 | h2 | ⟨h3a, h3b⟩ | ⟨h4a, h4b⟩
  · subst h1
    obtain ⟨t, rfl⟩ : ∃ t, path = '/' :: t := by
      cases path with
      | nil => simp at hpath
      | cons c t =>
        simp only [List.head?] at hpath
        exact ⟨t, by rw [Option.some.inj hpath]⟩
    have hlen : ¬ ('/' :: t).length < (['/'] : List Char).length := by simp
    unfold remainingPathAfterPrefix
    rw [if_neg hlen]
    have hdrop : ('/' :: t).drop (['/'] : List Char).length = t := by simp
    rw [hdrop]
    by_cases hc : t ≠ [] ∧ t.head? ≠ some '/'
    · right
      exact ⟨by simp, by rw [if_pos hc]; simp⟩
    · left
      rw [if_neg hc]
      simp
  · left
    rw [remainingPath_eq_nil_of_eq path pfx h2]
    simp [h2]
  · obtain ⟨rest, rfl⟩ := h3b
    have hlen : ¬ (pfx ++ rest).length < pfx.length := by simp
    have hdrop : (pfx ++ rest).drop pfx.length = rest := List.drop_left pfx rest
    unfold remainingPathAfterPrefix
    rw [if_neg hlen, hdrop]
    by_cases hc : rest ≠ [] ∧ rest.head? ≠ some '/'
    · right
      refine ⟨h3a, ?_⟩
      rw [if_pos hc]
      have hlastc : pfx.dropLast ++ ['/'] = pfx := by
        have h5 := List.dropLast_append_getLast hne
        have h6 : pfx.getLast hne = '/' := by
          rw [List.getLast?_eq_getLast pfx hne] at h3a
          exact Option.some.inj h3a
        rw [h6] at h5
        exact h5
      calc pfx.dropLast ++ '/' :: rest
          = (pfx.dropLast ++ ['/']) ++ rest := by simp
        _ = pfx ++ rest := by rw [hlastc]
    · left
      rw [if_neg hc]
  · obtain ⟨rest, rfl⟩ := h4a
    have hdrop : (pfx ++ rest).drop pfx.length = rest := List.drop_left pfx rest
    have hhead : rest.head? = some '/' := by
      have hsplit : (pfx ++ rest).get? pfx.length = rest.get? 0 := by
        simpa using List.get?_append_right (Nat.le_refl pfx.length)
      rw [hsplit] at h4b
      simpa [List.get?_eq_getElem?, List.head?_eq_getElem?] using h4b
    left
    unfold remainingPathAfterPrefix
    rw [if_neg (by simp), hdrop, if_neg (by simp [hhead])]

/-! ## Header-copy lemmas -/

theorem copyHeaders_cons (dst : Header) (e : String × List String)
    (rest : Header) :
    copyHeaders dst (e :: rest) =
      copyHeaders
        (if hopByHopHeaders.contains (lowerString e.1) then dst
         else setAssoc dst e.1 e.2) rest := rfl

theorem copyHeaders_not_mem_key (src : Header) (dst : Header) (n : String)
    (h : n ∉ src.map Prod.fst) :
    lookupAssoc (copyHeaders dst src) n = lookupAssoc dst n := by
  induction src generalizing dst with
  | nil => rfl
  | cons e rest ih =>
    have h' : n ≠ e.1 ∧ n ∉ rest.map Prod.fst := by simpa using h
    rw [copyHeaders_cons]
    by_cases hc : hopByHopHeaders.contains (lowerString e.1)
    · rw [if_pos hc]
      exact ih dst h'.2
    · rw [if_neg hc, ih (setAssoc dst e.1 e.2) h'.2]
      exact lookupAssoc_setAssoc_ne dst e.1 n e.2 h'.1

theorem copyHeaders_mem_not_hop (src : Header) (dst : Header) (n : String)
    (vs : List String) (hnodup : (src.map Prod.fst).Nodup)
    (hmem : (n, vs) ∈ src)
    (hhop : ¬ hopByHopHeaders.contains (lowerString n) = true) :
    lookupAssoc (copyHeaders dst src) n = some vs := by
  induction src generalizing dst with
  | nil => cases hmem
  | cons e rest ih =>
    rw [copyHeaders_cons]
    rcases List.mem_cons.mp hmem with he | hmem'
    · subst he
      have hrest : n ∉ rest.map Prod.fst := by
        simpa using (List.nodup_cons.mp hnodup).1
      rw [if_neg hhop, copyHeaders_not_mem_key rest _ n hrest]
      exact lookupAssoc_setAssoc_self dst n vs
    · exact ih _ (List.nodup_cons.mp hnodup).2 hmem'

theorem copyHeaders_mem_hop (src : Header) (dst : Header) (n : String)
    (vs : List String) (hnodup : (src.map Prod.fst).Nodup)
    (hmem : (n, vs) ∈ src)
    (hhop : hopByHopHeaders.contains (lowerString n) = true) :
    lookupAssoc (copyHeaders dst src) n = lookupAssoc dst n := by
  induction src generalizing dst with
  | nil => cases hmem
  | cons e rest ih =>
    rw [copyHeaders_cons]
    rcases List.mem_cons.mp hmem with he | hmem'
    · subst he
      have hrest : n ∉ rest.map Prod.fst := by
        simpa using (List.nodup_cons.mp hnodup).1
      rw [if_pos hhop]
      exact copyHeaders_not_mem_key rest dst n hrest
    · have hne : n ≠ e.1 := by
        intro hc
        have hmapmem : e.1 ∉ rest.map Prod.fst := by
          simpa using (List.nodup_cons.mp hnodup).1
        exact hmapmem (hc ▸ List.mem_map_of_mem Prod.fst hmem')
      by_cases hc : hopByHopHeaders.contains (lowerString e.1)
      · rw [if_pos hc]
        exact ih dst (List.nodup_cons.mp hnodup).2 hmem'
      · rw [if_neg hc, ih _ (List.nodup_cons.mp hnodup).2 hmem']
        exact lookupAssoc_setAssoc_ne dst e.1 n e.2 hne

/-! ## Claim theorems: router and forwarder -/

/-- C1 (code bug): `GetPrefixes` does not sort — it returns the cache keys
in iteration order (redis.go:503-513), although the repository's own test
`TestMappingManager_GetPrefixesSorted` expects `["/openai/v1", "/openai",
"/a"]` and `findMatchingPrefix`'s comment assumes a length-sorted input.
On the test's cache, iterated in the order shown, the output is not sorted
by length descending and the router picks `"/openai"` for
`"/openai/v1/chat"` even though the longer prefix `"/openai/v1"` matches. -/
theorem getPrefixes_unsorted_bug :
    GetPrefixes [("/a", "http://a"), ("/openai", "http://openai"),
        ("/openai/v1", "http://openai-v1")] =
      ["/a", "/openai", "/openai/v1"] ∧
    ¬ List.Pairwise (fun a b : String => b.length ≤ a.length)
        (GetPrefixes [("/a", "http://a"), ("/openai", "http://openai"),
          ("/openai/v1", "http://openai-v1")]) ∧
    findMatchingPrefix "/openai/v1/chat".data
        ((GetPrefixes [("/a", "http://a"), ("/openai", "http://openai"),
          ("/openai/v1", "http://openai-v1")]).map String.data) =
      some "/openai".data ∧
    matchesPrefix "/openai/v1/chat".data "/openai/v1".data = true :=
  ⟨rfl, by decide, by decide, by decide⟩

/-- C2: for every path and non-empty prefix, `matchesPrefix` returns `true`
iff the prefix is `"/"`, or the path equals the prefix, or the prefix ends
with `'/'` and the path starts with it, or the path starts with it and
continues with `'/'` at index `len(prefix)` — segment-boundary matching. -/
theorem matchesPrefix_characterization (path pfx : List Char) (h : pfx ≠ []) :
    matchesPrefix path pfx = true ↔
      pfx = ['/'] ∨ path = pfx ∨
      (pfx.getLast? = some '/' ∧ pfx <+: path) ∨
      (pfx <+: path ∧ path.get? pfx.length = some '/') :=
  matchesPrefix_iff_aux path pfx h

/-- Witness for C2 at a concrete input: `"/api"` matches `"/api/v1"`. -/
theorem matchesPrefix_characterization_witness :
    matchesPrefix "/api/v1".data "/api".data = true :=
  (matchesPrefix_characterization "/api/v1".data "/api".data (by decide)).mpr
    (Or.inr (Or.inr (Or.inr ⟨by decide, by decide⟩)))

/-- C3: when `findMatchingPrefix` selects a prefix for a slash-initial path,
that prefix belongs to the supplied list, the prefix concatenated with the
residual of `remainingPathAfterPrefix` gives back the path (exactly, or
after collapsing the doubled slash when the prefix itself ends in `'/'` —
the "leading slash normalized" case), an exact match yields the empty
residual, and a non-empty residual always begins with `'/'`. -/
theorem findMatchingPrefix_residual_sound (path pre : List Char)
    (ps : List (List Char)) (hpath : path.head? = some '/')
    (hfind : findMatchingPrefix path ps = some pre) :
    pre ∈ ps ∧
    (pre ++ remainingPathAfterPrefix path pre = path ∨
      (pre.getLast? = some '/' ∧
        pre.dropLast ++ remainingPathAfterPrefix path pre = path)) ∧
    (path = pre → remainingPathAfterPrefix path pre = []) ∧
    (remainingPathAfterPrefix path pre ≠ [] →
      (remainingPathAfterPrefix path pre).head? = some '/') := by
  have hmem : pre ∈ ps := List.mem_of_find?_eq_some hfind
  have hmatch : matchesPrefix path pre = true := List.find?_some hfind
  exact ⟨hmem, remainingPath_append path pre hpath hmatch,
    remainingPath_eq_nil_of_eq path pre, remainingPath_head path pre⟩

/-- Witness for C3 at a concrete input. -/
theorem findMatchingPrefix_residual_sound_witness :
    "/api".data ∈ ["/api".data] ∧
    ("/api".data ++ remainingPathAfterPrefix "/api/v1".data "/api".data =
        "/api/v1".data ∨
      ("/api".data.getLast? = some '/' ∧
        "/api".data.dropLast ++
          remainingPathAfterPrefix "/api/v1".data "/api".data =
            "/api/v1".data)) ∧
    ("/api/v1".data = "/api".data →
      remainingPathAfterPrefix "/api/v1".data "/api".data = []) ∧
    (remainingPathAfterPrefix "/api/v1".data "/api".data ≠ [] →
      (remainingPathAfterPrefix "/api/v1".data "/api".data).head? =
        some '/') :=
  findMatchingPrefix_residual_sound "/api/v1".data "/api".data ["/api".data]
    (by decide) (by decide)

/-- C4: `copyHeaders` copies exactly the headers whose lower-cased name is
outside the eight-name hop-by-hop set, assigning the whole value list
verbatim under the unchanged name; a hop-by-hop entry, and any name absent
from the source, leaves the destination entry untouched.  The one function
is used for both the request copy (transparent.go:111) and the response
copy (transparent.go:121). -/
theorem copyHeaders_spec (dst src : Header) (n : String) (vs : List String)
    (hnodup : (src.map Prod.fst).Nodup) :
    ((n, vs) ∈ src → ¬ hopByHopHeaders.contains (lowerString n) = true →
      lookupAssoc (copyHeaders dst src) n = some vs) ∧
    ((n, vs) ∈ src → hopByHopHeaders.contains (lowerString n) = true →
      lookupAssoc (copyHeaders dst src) n = lookupAssoc dst n) ∧
    (n ∉ src.map Prod.fst →
      lookupAssoc (copyHeaders dst src) n = lookupAssoc dst n) :=
  ⟨fun hmem hhop => copyHeaders_mem_not_hop src dst n vs hnodup hmem hhop,
   fun hmem hhop => copyHeaders_mem_hop src dst n vs hnodup hmem hhop,
   fun hmem => copyHeaders_not_mem_key src dst n hmem⟩

/-- Witness for C4: a multi-value header survives verbatim, `Connection`
is dropped. -/
theorem copyHeaders_spec_witness :
    lookupAssoc
        (copyHeaders [] [("Connection", ["close"]), ("Accept", ["a", "b"])])
        "Accept" = some ["a", "b"] ∧
    lookupAssoc
        (copyHeaders [] [("Connection", ["close"]), ("Accept", ["a", "b"])])
        "Connection" = none :=
  ⟨(copyHeaders_spec [] [("Connection", ["close"]), ("Accept", ["a", "b"])]
      "Accept" ["a", "b"] (by decide)).1 (by decide) (by decide),
   by
    rw [(copyHeaders_spec []
        [("Connection", ["close"]), ("Accept", ["a", "b"])]
        "Connection" ["close"] (by decide)).2.1 (by decide) (by decide)]
    rfl⟩

/-- C5: the upstream request context keeps a client-supplied deadline
unchanged, and receives the 30-second guard deadline exactly when no
deadline exists (transparent.go:93-101). -/
theorem proxyDeadline_spec :
    (∀ d now : Int, proxyDeadline (some d) now = some d) ∧
    (∀ now : Int, proxyDeadline none now = some (now + 30)) :=
  ⟨fun _ _ => rfl, fun _ => rfl⟩

/-! ## Registry mutation lemmas -/

theorem AddMapping_ok_validate (st st₁ : ManagerState) (p t : String)
    (h : AddMapping noFaults st p t = (none, st₁)) :
    validateMapping p t = none := by
  cases hv : validateMapping p t
  · rfl
  · unfold AddMapping at h
    rw [hv] at h
    exact absurd h (by simp)

theorem AddMapping_ok (st st₁ : ManagerState) (p t : String)
    (h : AddMapping noFaults st p t = (none, st₁)) :
    st₁.cache = setAssoc st.cache p t ∧
    st₁.redis.mappings = setAssoc st.redis.mappings p t := by
  unfold AddMapping at h
  cases hv : validateMapping p t
  · rw [hv] at h
    dsimp only [noFaults] at h
    by_cases hex : (lookupAssoc st.redis.mappings p).isSome
    · rw [if_pos hex] at h
      exact absurd h (by simp)
    · rw [if_neg hex] at h
      injection h with h1 h2
      subst h2
      exact ⟨rfl, rfl⟩
  · rw [hv] at h
    exact absurd h (by simp)

theorem UpdateMapping_ok (st st₁ : ManagerState) (p t : String)
    (h : UpdateMapping noFaults st p t = (none, st₁)) :
    st₁.cache = setAssoc st.cache p t ∧
    st₁.redis.mappings = setAssoc st.redis.mappings p t := by
  unfold UpdateMapping at h
  cases hv : validateMapping p t
  · rw [hv] at h
    dsimp only [noFaults] at h
    by_cases hex : (lookupAssoc st.redis.mappings p).isSome = true
    · rw [if_neg (not_not_intro hex)] at h
      injection h with h1 h2
      subst h2
      exact ⟨rfl, rfl⟩
    · rw [if_pos hex] at h
      exact absurd h (by simp)
  · rw [hv] at h
    exact absurd h (by simp)

theorem DeleteMapping_ok (st st₁ : ManagerState) (p : String)
    (h : DeleteMapping noFaults st p = (none, st₁)) :
    st₁.cache = delAssoc st.cache p ∧
    st₁.redis.mappings = delAssoc st.redis.mappings p := by
  unfold DeleteMapping at h
  dsimp only [noFaults] at h
  by_cases hex : (lookupAssoc st.redis.mappings p).isSome = true
  · rw [if_neg (not_not_intro hex)] at h
    injection h with h1 h2
    subst h2
    exact ⟨rfl, rfl⟩
  · rw [if_pos hex] at h
    exact absurd h (by simp)

/-! ## Claim theorems: registry -/

/-- C6: the CRUD round-trip laws on a fault-free run: a successful
`AddMapping p t` makes `GetMapping p` return `t`; a successful
`UpdateMapping p t'` makes it return `t'`; a successful `DeleteMapping p`
makes it return the not-found error; adding an existing prefix fails, and
deleting an absent prefix fails. -/
theorem mapping_crud_laws (st : ManagerState) (p t t' : String) :
    (∀ st₁, AddMapping noFaults st p t = (none, st₁) →
      GetMapping noFaults st₁ p = (.ok t, st₁)) ∧
    (∀ st₁, UpdateMapping noFaults st p t' = (none, st₁) →
      GetMapping noFaults st₁ p = (.ok t', st₁)) ∧
    (∀ st₁, DeleteMapping noFaults st p = (none, st₁) →
      (GetMapping noFaults st₁ p).1 =
        .error ("mapping not found for prefix: " ++ p)) ∧
    (∀ st₁, AddMapping noFaults st p t = (none, st₁) →
      (AddMapping noFaults st₁ p t).1 =
        some ("mapping already exists for prefix: " ++ p)) ∧
    (∀ st₁, DeleteMapping noFaults st p = (none, st₁) →
      (DeleteMapping noFaults st₁ p).1 =
        some ("mapping not found for prefix: " ++ p)) := by
  refine ⟨?_, ?_, ?_, ?_, ?_⟩
  · intro st₁ h
    obtain ⟨hc, -⟩ := AddMapping_ok st st₁ p t h
    have hl : lookupAssoc st₁.cache p = some t := by
      rw [hc]; exact lookupAssoc_setAssoc_self _ _ _
    unfold GetMapping
    rw [hl]
  · intro st₁ h
    obtain ⟨hc, -⟩ := UpdateMapping_ok st st₁ p t' h
    have hl : lookupAssoc st₁.cache p = some t' := by
      rw [hc]; exact lookupAssoc_setAssoc_self _ _ _
    unfold GetMapping
    rw [hl]
  · intro st₁ h
    obtain ⟨hc, hm⟩ := DeleteMapping_ok st st₁ p h
    have hl1 : lookupAssoc st₁.cache p = none := by
      rw [hc]; exact lookupAssoc_delAssoc_self _ _
    have hl2 : lookupAssoc st₁.redis.mappings p = none := by
      rw [hm]; exact lookupAssoc_delAssoc_self _ _
    unfold GetMapping
    rw [hl1, hl2]
    rfl
  · intro st₁ h
    obtain ⟨-, hm⟩ := AddMapping_ok st st₁ p t h
    have hv := AddMapping_ok_validate st st₁ p t h
    have hl : (lookupAssoc st₁.redis.mappings p).isSome := by
      rw [hm, lookupAssoc_setAssoc_self]
      rfl
    unfold AddMapping
    rw [hv]
    dsimp only [noFaults]
    rw [if_pos hl]
    rfl
  · intro st₁ h
    obtain ⟨-, hm⟩ := DeleteMapping_ok st st₁ p h
    have hl : ¬ (lookupAssoc st₁.redis.mappings p).isSome = true := by
      rw [hm, lookupAssoc_delAssoc_self]
      simp
    unfold DeleteMapping
    dsimp only [noFaults]
    rw [if_pos hl]
    rfl

/-- Witness for C6: `Add("/a", "http://t")` on an empty registry followed by
`Get("/a")` yields `"http://t"`. -/
theorem mapping_crud_laws_witness :
    GetMapping noFaults
        (AddMapping noFaults initialState "/a" "http://t").2 "/a" =
      (.ok "http://t", (AddMapping noFaults initialState "/a" "http://t").2) :=
  (mapping_crud_laws initialState "/a" "http://t" "http://t2").1
    (AddMapping noFaults initialState "/a" "http://t").2 (by rfl)

theorem AddMapping_err_cache (fl : RedisFaults) (st : ManagerState)
    (p t : String) (h : (AddMapping fl st p t).1.isSome) :
    (AddMapping fl st p t).2.cache = st.cache := by
  obtain ⟨f1, f2, f3, f4, f5, f6, f7, f8, f9⟩ := fl
  unfold AddMapping at h ⊢
  cases hv : validateMapping p t
  · cases f1 <;> cases f2 <;>
      by_cases h2 : (lookupAssoc st.redis.mappings p).isSome <;>
        simp_all
  · rfl

theorem UpdateMapping_err_cache (fl : RedisFaults) (st : ManagerState)
    (p t : String) (h : (UpdateMapping fl st p t).1.isSome) :
    (UpdateMapping fl st p t).2.cache = st.cache := by
  obtain ⟨f1, f2, f3, f4, f5, f6, f7, f8, f9⟩ := fl
  unfold UpdateMapping at h ⊢
  cases hv : validateMapping p t
  · cases f1 <;> cases f2 <;>
      by_cases h2 : (lookupAssoc st.redis.mappings p).isSome <;>
        simp_all
  · rfl

theorem DeleteMapping_err_cache (fl : RedisFaults) (st : ManagerState)
    (p : String) (h : (DeleteMapping fl st p).1.isSome) :
    (DeleteMapping fl st p).2.cache = st.cache := by
  obtain ⟨f1, f2, f3, f4, f5, f6, f7, f8, f9⟩ := fl
  unfold DeleteMapping at h ⊢
  cases f1 <;> cases f3 <;>
    by_cases h2 : (lookupAssoc st.redis.mappings p).isSome <;>
      simp_all

theorem AddMapping_hset_err (fl : RedisFaults) (st : ManagerState)
    (p t : String) (h : fl.hsetFails = true) :
    (AddMapping fl st p t).1.isSome := by
  obtain ⟨f1, f2, f3, f4, f5, f6, f7, f8, f9⟩ := fl
  unfold AddMapping
  cases hv : validateMapping p t <;> cases f1 <;> cases f2 <;>
    by_cases h2 : (lookupAssoc st.redis.mappings p).isSome <;> simp_all

theorem UpdateMapping_hset_err (fl : RedisFaults) (st : ManagerState)
    (p t : String) (h : fl.hsetFails = true) :
    (UpdateMapping fl st p t).1.isSome := by
  obtain ⟨f1, f2, f3, f4, f5, f6, f7, f8, f9⟩ := fl
  unfold UpdateMapping
  cases hv : validateMapping p t <;> cases f1 <;> cases f2 <;>
    by_cases h2 : (lookupAssoc st.redis.mappings p).isSome <;> simp_all

theorem DeleteMapping_hdel_err (fl : RedisFaults) (st : ManagerState)
    (p : String) (h : fl.hdelFails = true) :
    (DeleteMapping fl st p).1.isSome := by
  obtain ⟨f1, f2, f3, f4, f5, f6, f7, f8, f9⟩ := fl
  unfold DeleteMapping
  cases f1 <;> cases f3 <;>
    by_cases h2 : (lookupAssoc st.redis.mappings p).isSome <;> simp_all

theorem AddMapping_publish_result (fl : RedisFaults) (st : ManagerState)
    (p t : String) :
    (AddMapping { fl with publishFails := true } st p t).1 =
      (AddMapping { fl with publishFails := false } st p t).1 := by
  obtain ⟨f1, f2, f3, f4, f5, f6, f7, f8, f9⟩ := fl
  unfold AddMapping
  cases hv : validateMapping p t <;> cases f1 <;> cases f2 <;> cases f6 <;>
    by_cases h2 : (lookupAssoc st.redis.mappings p).isSome <;> simp_all

theorem UpdateMapping_publish_result (fl : RedisFaults) (st : ManagerState)
    (p t : String) :
    (UpdateMapping { fl with publishFails := true } st p t).1 =
      (UpdateMapping { fl with publishFails := false } st p t).1 := by
  obtain ⟨f1, f2, f3, f4, f5, f6, f7, f8, f9⟩ := fl
  unfold UpdateMapping
  cases hv : validateMapping p t <;> cases f1 <;> cases f2 <;> cases f6 <;>
    by_cases h2 : (lookupAssoc st.redis.mappings p).isSome <;> simp_all

theorem DeleteMapping_publish_result (fl : RedisFaults) (st : ManagerState)
    (p : String) :
    (DeleteMapping { fl with publishFails := true } st p).1 =
      (DeleteMapping { fl with publishFails := false } st p).1 := by
  obtain ⟨f1, f2, f3, f4, f5, f6, f7, f8, f9⟩ := fl
  unfold DeleteMapping
  cases f1 <;> cases f3 <;> cases f6 <;>
    by_cases h2 : (lookupAssoc st.redis.mappings p).isSome <;> simp_all

/-- C7: for every admin mutation, a run that returns an error leaves the
local cache unchanged (in particular a failed KV hash write — `hsetFails` /
`hdelFails` — always produces an error), while a failed publish never
changes the returned result: the mutation still succeeds. -/
theorem mutation_failure_atomicity (fl : RedisFaults) (st : ManagerState)
    (p t : String) :
    ((AddMapping fl st p t).1.isSome →
      (AddMapping fl st p t).2.cache = st.cache) ∧
    ((UpdateMapping fl st p t).1.isSome →
      (UpdateMapping fl st p t).2.cache = st.cache) ∧
    ((DeleteMapping fl st p).1.isSome →
      (DeleteMapping fl st p).2.cache = st.cache) ∧
    (fl.hsetFails = true → (AddMapping fl st p t).1.isSome ∧
      (UpdateMapping fl st p t).1.isSome) ∧
    (fl.hdelFails = true → (DeleteMapping fl st p).1.isSome) ∧
    (AddMapping { fl with publishFails := true } st p t).1 =
      (AddMapping { fl with publishFails := false } st p t).1 ∧
    (UpdateMapping { fl with publishFails := true } st p t).1 =
      (UpdateMapping { fl with publishFails := false } st p t).1 ∧
    (DeleteMapping { fl with publishFails := true } st p).1 =
      (DeleteMapping { fl with publishFails := false } st p).1 :=
  ⟨AddMapping_err_cache fl st p t, UpdateMapping_err_cache fl st p t,
   DeleteMapping_err_cache fl st p,
   fun h => ⟨AddMapping_hset_err fl st p t h,
     UpdateMapping_hset_err fl st p t h⟩,
   DeleteMapping_hdel_err fl st p,
   AddMapping_publish_result fl st p t,
   UpdateMapping_publish_result fl st p t,
   DeleteMapping_publish_result fl st p⟩

/-- Witness for C7: with a failing `HSet`, `AddMapping` errors and the
cache keeps its previous single entry. -/
theorem mutation_failure_atomicity_witness :
    (AddMapping { hsetFails := true }
      { redis := { mappings := [], mappingsVersion := none, published := [] },
        cache := [("/b", "http://u")], version := 0, lastReload := 0 }
      "/a" "http://t").2.cache = [("/b", "http://u")] :=
  (mutation_failure_atomicity { hsetFails := true }
    { redis := { mappings := [], mappingsVersion := none, published := [] },
      cache := [("/b", "http://u")], version := 0, lastReload := 0 }
    "/a" "http://t").1 (by rfl)

theorem validateMapping_none (p t : String) (h : validateMapping p t = none) :
    p.data ≠ [] ∧ p.data.head? = some '/' ∧ ¬ p.data.contains ' ' = true ∧
    t.data ≠ [] ∧
    ∃ u, urlParse t.data = some u ∧
      (u.scheme = "http".data ∨ u.scheme = "https".data) ∧ u.host ≠ [] := by
  unfold validateMapping at h
  by_cases h1 : p.data = []
  · rw [if_pos h1] at h; cases h
  rw [if_neg h1] at h
  by_cases h2 : p.data.head? ≠ some '/'
  · rw [if_pos h2] at h; cases h
  rw [if_neg h2] at h
  by_cases h3 : p.data.contains ' ' = true
  · rw [if_pos h3] at h; cases h
  rw [if_neg h3] at h
  by_cases h4 : t.data = []
  · rw [if_pos h4] at h; cases h
  rw [if_neg h4] at h
  cases hu : urlParse t.data with
  | none => rw [hu] at h; cases h
  | some u =>
    rw [hu] at h
    dsimp only at h
    by_cases h5 : u.scheme ≠ "http".data ∧ u.scheme ≠ "https".data
    · rw [if_pos h5] at h; cases h
    rw [if_neg h5] at h
    by_cases h6 : u.host = []
    · rw [if_pos h6] at h; cases h
    have h5' : u.scheme = "http".data ∨ u.scheme = "https".data := by
      rcases not_and_or.mp h5 with hh | hh
      · exact Or.inl (not_not.mp hh)
      · exact Or.inr (not_not.mp hh)
    exact ⟨h1, not_not.mp h2, h3, h4, u, rfl, h5', h6⟩

/-- C8: `AddMapping` and `UpdateMapping` reject — with an error, returning
the state untouched, before any Redis command runs — every input whose
prefix is empty, lacks the leading `'/'`, or contains a space, and every
target that is empty, fails URL parsing, has a scheme other than
`http`/`https`, or has an empty host. -/
theorem addUpdate_validation_reject (fl : RedisFaults) (st : ManagerState)
    (p t : String)
    (h : p.data = [] ∨ p.data.head? ≠ some '/' ∨ p.data.contains ' ' = true ∨
      t.data = [] ∨ urlParse t.data = none ∨
      (∃ u, urlParse t.data = some u ∧
        ((u.scheme ≠ "http".data ∧ u.scheme ≠ "https".data) ∨
          u.host = []))) :
    ((AddMapping fl st p t).1.isSome ∧ (AddMapping fl st p t).2 = st) ∧
    ((UpdateMapping fl st p t).1.isSome ∧ (UpdateMapping fl st p t).2 = st) := by
  have hv : (validateMapping p t).isSome := by
    rcases hvn : validateMapping p t with - | e
    · exfalso
      obtain ⟨g1, g2, g3, g4, u, hu, g5, g6⟩ := validateMapping_none p t hvn
      rcases h with hb | hb | hb | hb | hb | ⟨u', hu', hb⟩
      · exact g1 hb
      · exact hb g2
      · exact g3 hb
      · exact g4 hb
      · rw [hu] at hb; cases hb
      · rw [hu] at hu'
        cases hu'
        rcases hb with ⟨hb1, hb2⟩ | hb
        · rcases g5 with g5 | g5
          · exact hb1 g5
          · exact hb2 g5
        · exact g6 hb
    · rfl
  obtain ⟨e, he⟩ := Option.isSome_iff_exists.mp hv
  constructor
  · unfold AddMapping
    rw [he]
    exact ⟨rfl, rfl⟩
  · unfold UpdateMapping
    rw [he]
    exact ⟨rfl, rfl⟩

/-- Witness for C8: `target = "ftp://example.com"` is rejected and the
state is unchanged. -/
theorem addUpdate_validation_reject_witness :
    ((AddMapping noFaults initialState "/a" "ftp://example.com").1.isSome ∧
      (AddMapping noFaults initialState "/a" "ftp://example.com").2 =
        initialState) ∧
    ((UpdateMapping noFaults initialState "/a" "ftp://example.com").1.isSome ∧
      (UpdateMapping noFaults initialState "/a" "ftp://example.com").2 =
        initialState) :=
  addUpdate_validation_reject noFaults initialState "/a" "ftp://example.com"
    (Or.inr (Or.inr (Or.inr (Or.inr (Or.inr
      ⟨⟨"ftp".data, "example.com".data⟩, by decide,
        Or.inl ⟨by decide, by decide⟩⟩)))))

theorem reload_skip (st : ManagerState) (now : Int) (v : Int)
    (hv : st.redis.mappingsVersion = some v) (hpos : 0 < v)
    (heq : v = st.version) :
    reloadMappings noFaults st now =
      (none, { st with lastReload := now }, false) := by
  have hskip : st.redis.mappingsVersion.getD 0 > 0 ∧
      st.redis.mappingsVersion.getD 0 = st.version := by
    rw [hv]
    exact ⟨hpos, heq⟩
  unfold reloadMappings
  simp only [noFaults, Bool.false_eq_true, if_false]
  rw [if_pos hskip]

theorem reload_empty (st : ManagerState) (now : Int)
    (hskip : ¬ (st.redis.mappingsVersion.getD 0 > 0 ∧
      st.redis.mappingsVersion.getD 0 = st.version))
    (hempty : st.redis.mappings = []) :
    reloadMappings noFaults st now =
      (none, { st with lastReload := now }, true) := by
  unfold reloadMappings
  simp only [noFaults, Bool.false_eq_true, if_false]
  rw [if_neg hskip, hempty]
  rw [if_pos (show (List.length ([] : Map) = 0) from rfl)]

theorem reload_swap (st : ManagerState) (now : Int)
    (hskip : ¬ (st.redis.mappingsVersion.getD 0 > 0 ∧
      st.redis.mappingsVersion.getD 0 = st.version))
    (hnonempty : st.redis.mappings ≠ []) :
    reloadMappings noFaults st now =
      (none,
        { redis :=
            if st.redis.mappingsVersion.getD 0 > 0 then st.redis
            else { st.redis with mappingsVersion := some (st.version + 1) },
          cache := st.redis.mappings,
          version :=
            if st.redis.mappingsVersion.getD 0 > 0 then
              st.redis.mappingsVersion.getD 0
            else st.version + 1,
          lastReload := now }, true) := by
  unfold reloadMappings
  simp only [noFaults, Bool.false_eq_true, if_false]
  rw [if_neg hskip]
  rw [if_neg (by simpa using hnonempty), if_neg hskip]
  by_cases hc : st.redis.mappingsVersion.getD 0 > 0 <;> simp [hc]

/-- C9 (counterexample): with remote version `2`, local version `1` and an
empty KV hash, `reloadMappings` returns success but — contrary to the
claim's "otherwise it builds a fresh map from the full hash, swaps it in
under an exclusive lock, and sets the local version from the remote
version" — it leaves the cache and the local version untouched
(redis.go:189-194 returns early on an empty hash). -/
theorem reload_empty_hash_counterexample :
    (reloadMappings noFaults
        { redis := { mappings := [], mappingsVersion := some 2, published := [] },
          cache := [("/a", "http://t")], version := 1, lastReload := 0 }
        100).1 = none ∧
    (reloadMappings noFaults
        { redis := { mappings := [], mappingsVersion := some 2, published := [] },
          cache := [("/a", "http://t")], version := 1, lastReload := 0 }
        100).2.1.cache = [("/a", "http://t")] ∧
    ¬ ((reloadMappings noFaults
        { redis := { mappings := [], mappingsVersion := some 2, published := [] },
          cache := [("/a", "http://t")], version := 1, lastReload := 0 }
        100).2.1.version = 2) :=
  ⟨rfl, rfl, by decide⟩

/-- C9 (amended): `reloadMappings` skips with only a `lastReload` update and
no hash read when the remote version is present, positive and equal to the
local one; otherwise it reads the full hash: an empty hash gives success
with only `lastReload` updated, while a non-empty hash is swapped in as the
new cache with the local version set from the remote version when that is
positive and otherwise incremented and written back to Redis. -/
theorem reloadMappings_spec (st : ManagerState) (now : Int) :
    (∀ v : Int, st.redis.mappingsVersion = some v → 0 < v →
      v = st.version →
      reloadMappings noFaults st now =
        (none, { st with lastReload := now }, false)) ∧
    (¬ (st.redis.mappingsVersion.getD 0 > 0 ∧
        st.redis.mappingsVersion.getD 0 = st.version) →
      st.redis.mappings = [] →
      reloadMappings noFaults st now =
        (none, { st with lastReload := now }, true)) ∧
    (¬ (st.redis.mappingsVersion.getD 0 > 0 ∧
        st.redis.mappingsVersion.getD 0 = st.version) →
      st.redis.mappings ≠ [] →
      reloadMappings noFaults st now =
        (none,
          { redis :=
              if st.redis.mappingsVersion.getD 0 > 0 then st.redis
              else { st.redis with mappingsVersion := some (st.version + 1) },
            cache := st.redis.mappings,
            version :=
              if st.redis.mappingsVersion.getD 0 > 0 then
                st.redis.mappingsVersion.getD 0
              else st.version + 1,
            lastReload := now }, true)) :=
  ⟨fun v hv hpos heq => reload_skip st now v hv hpos heq,
   fun hskip hempty => reload_empty st now hskip hempty,
   fun hskip hnonempty => reload_swap st now hskip hnonempty⟩

/-- Witness for C9 at a concrete state: remote and local version both `3`,
so the reload only refreshes `lastReload` and performs no hash read. -/
theorem reloadMappings_spec_witness :
    reloadMappings noFaults
        { redis := { mappings := [("/a", "http://t")], mappingsVersion := some 3, published := [] },
          cache := [("/a", "http://t")], version := 3, lastReload := 0 }
        50 =
      (none,
        { redis := { mappings := [("/a", "http://t")], mappingsVersion := some 3, published := [] },
          cache := [("/a", "http://t")], version := 3, lastReload := 50 },
        false) :=
  (reloadMappings_spec
    { redis := { mappings := [("/a", "http://t")], mappingsVersion := some 3, published := [] },
      cache := [("/a", "http://t")], version := 3, lastReload := 0 }
    50).1 3 rfl (by decide) rfl

/-- C10: when the KV hash is empty, `reloadMappings` succeeds while leaving
the cache contents and the version untouched (entries deleted from the KV
store keep being served), whereas `ForceReload` always installs the hash
contents as the new cache — the empty map when the hash is empty. -/
theorem reload_vs_forceReload_empty (st : ManagerState) (now : Int)
    (h : st.redis.mappings = []) :
    (reloadMappings noFaults st now).1 = none ∧
    (reloadMappings noFaults st now).2.1.cache = st.cache ∧
    (reloadMappings noFaults st now).2.1.version = st.version ∧
    (∀ st' : ManagerState,
      (ForceReload noFaults st' now).1 = none ∧
      (ForceReload noFaults st' now).2.cache = st'.redis.mappings) ∧
    (ForceReload noFaults st now).2.cache = [] := by
  have hforce : ∀ st' : ManagerState,
      (ForceReload noFaults st' now).1 = none ∧
      (ForceReload noFaults st' now).2.cache = st'.redis.mappings := by
    intro st'
    unfold ForceReload
    simp [noFaults]
  by_cases hskip : st.redis.mappingsVersion.getD 0 > 0 ∧
      st.redis.mappingsVersion.getD 0 = st.version
  · have hr : reloadMappings noFaults st now =
        (none, { st with lastReload := now }, false) := by
      unfold reloadMappings
      simp only [noFaults, Bool.false_eq_true, if_false]
      rw [if_pos hskip]
    rw [hr, (hforce st).2, h]
    exact ⟨rfl, rfl, rfl, hforce, rfl⟩
  · have hr := reload_empty st now hskip h
    rw [hr, (hforce st).2, h]
    exact ⟨rfl, rfl, rfl, hforce, rfl⟩

/-- Witness for C10: a state whose cache still holds `"/a"` while the KV
hash is already empty. -/
theorem reload_vs_forceReload_empty_witness :
    (reloadMappings noFaults
        { redis := { mappings := [], mappingsVersion := some 2, published := [] },
          cache := [("/a", "http://t")], version := 2, lastReload := 0 }
        7).2.1.cache = [("/a", "http://t")] ∧
    (ForceReload noFaults
        { redis := { mappings := [], mappingsVersion := some 2, published := [] },
          cache := [("/a", "http://t")], version := 2, lastReload := 0 }
        7).2.cache = [] :=
  ⟨(reload_vs_forceReload_empty
      { redis := { mappings := [], mappingsVersion := some 2, published := [] },
        cache := [("/a", "http://t")], version := 2, lastReload := 0 }
      7 rfl).2.1,
   (reload_vs_forceReload_empty
      { redis := { mappings := [], mappingsVersion := some 2, published := [] },
        cache := [("/a", "http://t")], version := 2, lastReload := 0 }
      7 rfl).2.2.2.2⟩

end ApiProxy
